import Mathlib

/-!
Verification development for the Belgian day-ahead price scraper
(`src/scrape_entsoe.py`).

Shallow embedding conventions:
* Instants are integer minutes.  A UTC instant is an `Int`; a calendar
  date is its day index `t.fdiv 1440`; the local hour-of-day of a local
  instant `m` is `(m.fdiv 60) % 24`.
* Python's `datetime.astimezone()` (conversion to the *system* local
  zone, used by `parse_entsoe_response`) is modelled by an arbitrary
  function `env : Int → Int` taking a UTC instant to the corresponding
  local civil instant.
* Prices are `ℚ` (the floats of the source, idealised as exact
  rationals); Python's banker's rounding `round(x, n)` is modelled by
  `roundTo n` below, built on an explicit computable floor.
* XML decoding of well-typed fields and the logging side effects are
  out of scope; a document is modelled as already-lexed nested lists.
  Dictionary fields that no later stage of the program ever reads
  (`position`, `period_start`, `data_points`) are omitted from the
  point records.
-/

/-- `Period/resolution` values consumed by the parser (lines 247-255).
A missing or unrecognised resolution tag behaves as `PT60M` in every
branch of the source, so it is identified with `PT60M` here. -/
inductive Res where
  | PT15M
  | PT30M
  | PT60M
deriving DecidableEq

/-- One `Point` element: `position` (1-based) and `price.amount`. -/
structure RawPoint where
  position : Int
  price : ℚ
deriving DecidableEq

/-- One `Period` element: `timeInterval/start` (UTC minutes),
`resolution`, and its `Point` children in document order. -/
structure Period where
  start : Int
  res : Res
  points : List RawPoint
deriving DecidableEq

/-- Classification tags attached to a `TimeSeries` element.  The
source never reads any of them; they are carried to state that. -/
structure SeriesMetadata where
  businessType : String
  curveType : String
  currencyUnit : String
  priceUnit : String
deriving DecidableEq

/-- One `TimeSeries` element. -/
structure TimeSeries where
  metadata : SeriesMetadata
  periods : List Period
deriving DecidableEq

/-- A parsed XML document: its `TimeSeries` elements in order. -/
structure Document where
  series : List TimeSeries
deriving DecidableEq

/-- A point dict as built at lines 323-330 / 397-403: local `datetime`
(minutes), `price_eur_mwh`, `price_eur_kwh`, `resolution`. -/
structure PricePoint where
  dt : Int
  price_eur_mwh : ℚ
  price_eur_kwh : ℚ
  res : Res
deriving DecidableEq

/-- A point dict after the sequential `hour` numbering of lines 369-370. -/
structure NPoint where
  hour : Nat
  dt : Int
  price_eur_mwh : ℚ
  price_eur_kwh : ℚ
  res : Res
deriving DecidableEq

instance : Inhabited NPoint :=
  ⟨{ hour := 0, dt := 0, price_eur_mwh := 0, price_eur_kwh := 0, res := Res.PT60M }⟩

/-- Lines 249-255: minutes per position step for a resolution. -/
def resolutionMinutes : Res → Int
  | Res.PT15M => 15
  | Res.PT30M => 30
  | Res.PT60M => 60

/-- `.date()` of the local instant `env t` (used at lines 271-277, 319). -/
def localDayOf (env : Int → Int) (t : Int) : Int := (env t).fdiv 1440

/-- The `'%Y-%m-%d %H'` key of line 361: the local hour index. -/
def hourKey (p : PricePoint) : Int := p.dt.fdiv 60

/-- Lines 207-338: decode one `Period` against the target local date.
The period is skipped when it has no points or when its local start/end
dates do not cover the target date; each point's UTC instant is
`start + resolution * (position - 1)` and the point is kept iff its
local calendar date equals the target date. -/
def decodePeriod (env : Int → Int) (targetDay : Int) (per : Period) : List PricePoint :=
  if per.points = [] then []
  else
    let delta := resolutionMinutes per.res
    let periodEnd := per.start + delta * (per.points.length : Int)
    let sd := localDayOf env per.start
    let ed := localDayOf env periodEnd
    if (sd ≤ targetDay ∧ targetDay ≤ ed) ∨ targetDay = sd ∨ targetDay = ed then
      per.points.filterMap fun r =>
        let t := per.start + delta * (r.position - 1)
        let lt := env t
        if lt.fdiv 1440 = targetDay then
          some { dt := lt, price_eur_mwh := r.price, price_eur_kwh := r.price / 1000,
                 res := per.res }
        else none
    else []

/-- Lines 194-338: `all_points`, pooled over every `TimeSeries` and
every `Period` of the document, in document order. -/
def collectPoints (env : Int → Int) (doc : Document) (targetDay : Int) : List PricePoint :=
  doc.series.flatMap fun ts => ts.periods.flatMap (decodePeriod env targetDay)

/-- Sort key of line 346. -/
def dtLe (a b : PricePoint) : Prop := a.dt ≤ b.dt

instance : DecidableRel dtLe := fun a b => Int.decLe a.dt b.dt

/-- Line 346: `all_points.sort(key=lambda x: x['datetime'])` — a stable
sort by the local datetime. -/
def sortByDt (l : List PricePoint) : List PricePoint := List.insertionSort dtLe l

/-- `datetime.replace(minute=0, ...)` of line 385: start of the local hour. -/
def hourStartOf (p : PricePoint) : Int := 60 * p.dt.fdiv 60

/-- `sum(xs) / len(xs)`. -/
def avgOf (l : List ℚ) : ℚ := l.sum / (l.length : ℚ)

/-- Lines 376-406 `convert_to_hourly`: group points by local hour start,
then emit, in ascending key order, one `PT60M` point per hour holding
the average price of its group. -/
def convertToHourly (pts : List PricePoint) : List PricePoint :=
  let keys := List.insertionSort (fun a b : Int => a ≤ b) (pts.map hourStartOf).dedup
  keys.map fun h =>
    let grp := (pts.filter fun p => hourStartOf p == h).map (·.price_eur_mwh)
    { dt := h, price_eur_mwh := avgOf grp, price_eur_kwh := avgOf grp / 1000,
      res := Res.PT60M }

/-- Lines 357-366: the deduplication loop.  `seen` is the
`seen_hours` set; a point is kept iff its hour key is unseen. -/
def dedupGo (seen : List Int) : List PricePoint → List PricePoint
  | [] => []
  | p :: rest =>
    if hourKey p ∈ seen then dedupGo seen rest
    else p :: dedupGo (hourKey p :: seen) rest

/-- Lines 369-370: `enumerate(unique_points, 1)` hour numbering. -/
def numberFrom (n : Nat) : List PricePoint → List NPoint
  | [] => []
  | p :: rest =>
    { hour := n, dt := p.dt, price_eur_mwh := p.price_eur_mwh,
      price_eur_kwh := p.price_eur_kwh, res := p.res } :: numberFrom (n + 1) rest

/-- Lines 369-370 with the starting index 1 of the source. -/
def addHours (pts : List PricePoint) : List NPoint := numberFrom 1 pts

/-- Lines 340-374: the tail of `parse_entsoe_response` after
`all_points` is collected: sort, convert sub-hourly data (decided by
the first point's resolution), deduplicate per hour, number. -/
def parseFromPoints (allPoints : List PricePoint) : List NPoint :=
  if allPoints = [] then []
  else
    let sorted := sortByDt allPoints
    let hourly :=
      match sorted with
      | [] => []
      | p :: _ =>
        if p.res = Res.PT15M ∨ p.res = Res.PT30M then convertToHourly sorted else sorted
    addHours (dedupGo [] hourly)

/-- Lines 169-374: `parse_entsoe_response`. -/
def parseEntsoeResponse (env : Int → Int) (doc : Document) (targetDay : Int) : List NPoint :=
  parseFromPoints (collectPoints env doc targetDay)

/-- The anomaly classes appended to `issues` at lines 50-63 (only the
message text, which embeds formatted numbers, is abstracted). -/
inductive Issue where
  | high
  | negative
  | spike
  | fewUnique
  | badCount
deriving DecidableEq

/-- Python `max` of a nonempty list (the `[]` case is never reached). -/
def pyMax : List ℚ → ℚ
  | [] => 0
  | x :: xs => xs.foldl max x

/-- Python `min` of a nonempty list (the `[]` case is never reached). -/
def pyMin : List ℚ → ℚ
  | [] => 0
  | x :: xs => xs.foldl min x

/-- Lines 48-63: the `issues` list built by `validate_price_data`. -/
def issuesOf (prices : List ℚ) : List Issue :=
  (if pyMax prices > 500 then [Issue.high] else []) ++
    (if pyMin prices < 0 then [Issue.negative] else []) ++
      (if pyMax prices > 10 * avgOf prices ∧ pyMax prices > 100 then [Issue.spike] else []) ++
        (if prices.dedup.length < 5 then [Issue.fewUnique] else []) ++
          (if ¬(prices.length = 24 ∨ prices.length = 48 ∨ prices.length = 96) then
            [Issue.badCount] else [])

/-- Lines 35-74 `validate_price_data`: reject an empty list; otherwise
reject (`"Extreme price values detected"`) only when some issue exists
and `max > 1000` or `min < -100`; every other issue merely warns. -/
def validatePriceData (prices : List ℚ) : Bool × String :=
  if prices = [] then (false, "No prices found")
  else if issuesOf prices ≠ [] ∧ (pyMax prices > 1000 ∨ pyMin prices < -100) then
    (false, "Extreme price values detected")
  else (true, "Data validation passed")

/-- `sum(prices[j].price for j in range(i, i+k))`: price sum of the
window of length `k` starting at index `i`. -/
def blockSum (prices : List ℚ) (i k : Nat) : ℚ := ((prices.drop i).take k).sum

/-- One iteration of the loop at lines 417-422: a candidate replaces
the best so far only on strictly smaller sum (`none` is the initial
`float('inf')` state). -/
def stepBest (best : Option (Nat × ℚ)) (cand : Nat × ℚ) : Option (Nat × ℚ) :=
  match best with
  | none => some cand
  | some b => if cand.2 < b.2 then some cand else some b

/-- Lines 413-422: scan all window start indices `0..n-k` in order. -/
def bestBlock (prices : List ℚ) (k : Nat) : Option (Nat × ℚ) :=
  ((List.range (prices.length - k + 1)).map fun i => (i, blockSum prices i k)).foldl
    stepBest none

/-- The dict returned by `find_cheapest_block` (lines 438-447);
`start_dt`/`end_dt` stand for the ISO datetime strings. -/
structure Block where
  start_hour : Nat
  end_hour : Nat
  start_dt : Int
  end_dt : Int
  hours : Nat
  average_price : ℚ
  total_price : ℚ
  prices : List ℚ
deriving DecidableEq

/-- Lines 408-447 `find_cheapest_block`.  The inner `none` branch is
unreachable for `1 ≤ k ≤ len` (the Python loop always runs then). -/
def findCheapestBlock (pts : List NPoint) (k : Nat) : Option Block :=
  if pts.length < k then none
  else
    match bestBlock (pts.map (·.price_eur_mwh)) k with
    | none => none
    | some (i, s) =>
      let blockPts := (pts.drop i).take k
      some { start_hour := blockPts.headI.hour,
             end_hour := (blockPts.getLastD default).hour,
             start_dt := blockPts.headI.dt,
             end_dt := (blockPts.getLastD default).dt,
             hours := k,
             average_price := s / (k : ℚ),
             total_price := s,
             prices := blockPts.map (·.price_eur_mwh) }

/-- Computable floor of a rational. -/
def ratFloor (x : ℚ) : Int := Int.fdiv x.num (x.den : Int)

/-- Round half to even to an integer: Python's `round(x)`. -/
def rhe (x : ℚ) : Int :=
  if x - (ratFloor x : ℚ) < 1 / 2 then ratFloor x
  else if x - (ratFloor x : ℚ) > 1 / 2 then ratFloor x + 1
  else if ratFloor x % 2 = 0 then ratFloor x
  else ratFloor x + 1

/-- Python's `round(x, n)`. -/
def roundTo (n : Nat) (x : ℚ) : ℚ := (rhe (x * 10 ^ n) : ℚ) / 10 ^ n

/-- The `'1_hour'` entry of `cheapest_blocks` (lines 509-513). -/
structure OneHourBlockOut where
  hour : Nat
  time : Int
  price : ℚ
deriving DecidableEq

/-- The `'2_hours'`/`'3_hours'`/`'4_hours'` entries (lines 514-537). -/
structure MultiHourBlockOut where
  start_hour : Nat
  end_hour : Nat
  start_time : Int
  end_time : Int
  average_price : ℚ
  hours : Nat
deriving DecidableEq

/-- The `statistics` dict (lines 500-507). -/
structure Statistics where
  average_eur_mwh : ℚ
  min_eur_mwh : ℚ
  max_eur_mwh : ℚ
  min_hour : Nat
  max_hour : Nat
  price_spread : ℚ
deriving DecidableEq

/-- The `metadata` dict (lines 493-539); the constant `source` and
`timezone` strings are omitted, `date` and `retrieved_at` stand for
the formatted date and `datetime.now()` strings. -/
structure Metadata where
  date : Int
  retrieved_at : Int
  data_points : Nat
  resolution : Res
  statistics : Statistics
  cheapest_1h : Option OneHourBlockOut
  cheapest_2h : Option MultiHourBlockOut
  cheapest_3h : Option MultiHourBlockOut
  cheapest_4h : Option MultiHourBlockOut
deriving DecidableEq

/-- One entry of the output `prices` array (lines 544-551). -/
structure OutPoint where
  hour : Nat
  dt : Int
  price_eur_mwh : ℚ
  price_eur_kwh : ℚ
  price_cent_kwh : ℚ
deriving DecidableEq

/-- The `result` record of `format_price_data` (lines 492-553). -/
structure PriceResult where
  metadata : Metadata
  prices : List OutPoint
deriving DecidableEq

/-- Lines 544-551: one canonical output point. -/
def mkOutPoint (p : NPoint) : OutPoint :=
  { hour := p.hour, dt := p.dt,
    price_eur_mwh := roundTo 2 p.price_eur_mwh,
    price_eur_kwh := roundTo 4 p.price_eur_kwh,
    price_cent_kwh := roundTo 2 (p.price_eur_kwh * 100) }

/-- Lines 449-553 `format_price_data`. -/
def formatPriceData (prices : List NPoint) (targetDay : Int) (now : Int) :
    Option PriceResult :=
  if prices = [] then none
  else
    let priceValues := prices.map (·.price_eur_mwh)
    let avgPrice := avgOf priceValues
    let minPrice := pyMin priceValues
    let maxPrice := pyMax priceValues
    let minHourData := (prices.find? fun p => p.price_eur_mwh == minPrice).getD default
    let maxHourData := (prices.find? fun p => p.price_eur_mwh == maxPrice).getD default
    let c1 := findCheapestBlock prices 1
    let c2 := findCheapestBlock prices 2
    let c3 := findCheapestBlock prices 3
    let c4 := findCheapestBlock prices 4
    some
      { metadata :=
          { date := targetDay,
            retrieved_at := now,
            data_points := prices.length,
            resolution := prices.headI.res,
            statistics :=
              { average_eur_mwh := roundTo 2 avgPrice,
                min_eur_mwh := roundTo 2 minPrice,
                max_eur_mwh := roundTo 2 maxPrice,
                min_hour := minHourData.hour,
                max_hour := maxHourData.hour,
                price_spread := roundTo 2 (maxPrice - minPrice) },
            cheapest_1h := c1.map fun b =>
              { hour := b.start_hour, time := b.start_dt,
                price := roundTo 2 b.average_price },
            cheapest_2h := c2.map fun b =>
              { start_hour := b.start_hour, end_hour := b.end_hour,
                start_time := b.start_dt, end_time := b.end_dt,
                average_price := roundTo 2 b.average_price, hours := 2 },
            cheapest_3h := c3.map fun b =>
              { start_hour := b.start_hour, end_hour := b.end_hour,
                start_time := b.start_dt, end_time := b.end_dt,
                average_price := roundTo 2 b.average_price, hours := 3 },
            cheapest_4h := c4.map fun b =>
              { start_hour := b.start_hour, end_hour := b.end_hour,
                start_time := b.start_dt, end_time := b.end_dt,
                average_price := roundTo 2 b.average_price, hours := 4 } },
        prices := prices.map mkOutPoint }

/-- Lines 76-167 `fetch_day_ahead_prices`, from the point the XML is
parsed (HTTP transport, token handling and logging are out of scope):
parse, reject an empty result, validate, then format. -/
def fetchDayAheadPrices (env : Int → Int) (doc : Document) (targetDay : Int) (now : Int) :
    Option PriceResult :=
  let prices := parseEntsoeResponse env doc targetDay
  if prices = [] then none
  else if (validatePriceData (prices.map (·.price_eur_mwh))).1 = false then none
  else formatPriceData prices targetDay now

/-- The output points of an attempt (`[]` when no series is returned). -/
def priceList : Option PriceResult → List OutPoint
  | none => []
  | some r => r.prices

/-- A result with the run-dependent `retrieved_at` field cleared. -/
def eraseRetrievedAt (r : PriceResult) : PriceResult :=
  { r with metadata := { r.metadata with retrieved_at := 0 } }

/-- Line 83 / 93: `timezone(timedelta(hours=1))`, the fixed `+01:00`
offset the source uses as "the" Belgian timezone. -/
def codeFixedOffsetMinutes : Int := 60

/-- Lines 91-98: the UTC instant the source takes as the start of the
target Belgian date: local midnight minus the fixed one-hour offset. -/
def codeStartTimeUtc (targetDay : Int) : Int := targetDay * 1440 - codeFixedOffsetMinutes

/-- Concrete two-point series for the C6 witness. -/
def wpts6 : List NPoint :=
  [⟨1, 0, 30, 30 / 1000, Res.PT60M⟩, ⟨2, 60, 20, 20 / 1000, Res.PT60M⟩]

/-- Concrete one-point period for the C7 witness. -/
def wper7 : Period := ⟨0, Res.PT60M, [⟨1, 100⟩]⟩

/-- Concrete point for the C8 witness (local hour 3, i.e. minute 180). -/
def wpt8 : PricePoint := ⟨180, 25, 25 / 1000, Res.PT60M⟩

/-- Concrete one-point document (one series, one hourly period starting
at UTC minute 0, price 200 EUR/MWh) for witnesses and counterexamples. -/
def wdoc1pt : Document := ⟨[⟨⟨"A62", "A03", "EUR", "MWH"⟩, [⟨0, Res.PT60M, [⟨1, 200⟩]⟩]⟩]⟩

/-- Two candidate prices for the same local hour 10 (minute 600): 42
first, 40 second, with equal timestamps. -/
def cpA : PricePoint := ⟨600, 42, 42 / 1000, Res.PT60M⟩

/-- See `cpA`. -/
def cpB : PricePoint := ⟨600, 40, 40 / 1000, Res.PT60M⟩

/-- A document with two `TimeSeries` of different classification
metadata (the second not even EUR/MWH), one point each, at local hours
9 and 10 of day 0. -/
def cdoc4 : Document :=
  ⟨[⟨⟨"A62", "A03", "EUR", "MWH"⟩, [⟨540, Res.PT60M, [⟨1, 41⟩]⟩]⟩,
    ⟨⟨"A01", "A04", "GBP", "KWH"⟩, [⟨600, Res.PT60M, [⟨1, 43⟩]⟩]⟩]⟩

/-- A document yielding six valid hourly points on the spring-forward
Brussels date 2025-03-30 (day 88): one series, one period starting at
its local midnight (2025-03-29 23:00 UTC). -/
def cdoc2 : Document :=
  ⟨[⟨⟨"A62", "A03", "EUR", "MWH"⟩,
    [⟨88 * 1440 - 60, Res.PT60M,
      [⟨1, 50⟩, ⟨2, 50⟩, ⟨3, 50⟩, ⟨4, 50⟩, ⟨5, 50⟩, ⟨6, 50⟩]⟩]⟩]⟩

/-- A day of four hourly points at local hours 0-3 of day 0, whose
unique minimum price (10) sits at local hour 3. -/
def cdoc8 : Document :=
  ⟨[⟨⟨"A62", "A03", "EUR", "MWH"⟩,
    [⟨0, Res.PT60M, [⟨1, 20⟩, ⟨2, 21⟩, ⟨3, 22⟩, ⟨4, 10⟩]⟩]⟩]⟩

/-- Modelled from the spec: the market's "Central-European zone with
DST rules" (Europe/Brussels), absent from the source.  Minutes of
offset from UTC during 2025 with the epoch at 2025-01-01: +120 from
the spring-forward instant 2025-03-30 01:00 UTC (day 88) up to the
fall-back instant 2025-10-26 01:00 UTC (day 298), else +60. -/
def bxlOffset (t : Int) : Int :=
  if 88 * 1440 + 60 ≤ t ∧ t < 298 * 1440 + 60 then 120 else 60

/-- Modelled from the spec: DST-aware conversion of a UTC instant to
Brussels civil time. -/
def bxlLocalOfUtc (t : Int) : Int := t + bxlOffset t

/-- Modelled from the spec: "the true hour count of the local date (23
on the spring-forward day, 25 on the fall-back day, 24 otherwise)",
for 2025 with the epoch above. -/
def trueHourCount (d : Int) : Nat := if d = 88 then 23 else if d = 298 then 25 else 24

/-- Rewrite every series' classification metadata of a document. -/
def mapMetadata (f : SeriesMetadata → SeriesMetadata) (doc : Document) : Document :=
  ⟨doc.series.map fun ts => ⟨f ts.metadata, ts.periods⟩⟩

/-- Merge all periods of all series of a document into one single
series carrying arbitrary metadata. -/
def poolSeries (doc : Document) (m : SeriesMetadata) : Document :=
  ⟨[⟨m, doc.series.flatMap (·.periods)⟩]⟩

lemma issuesOf_ne_nil_of_high {prices : List ℚ} (h : pyMax prices > 500) :
    issuesOf prices ≠ [] := by
  unfold issuesOf
  rw [if_pos h]
  simp

lemma issuesOf_ne_nil_of_neg {prices : List ℚ} (h : pyMin prices < 0) :
    issuesOf prices ≠ [] := by
  unfold issuesOf
  rw [if_pos h]
  simp [List.append_eq_nil]

lemma validatePriceData_false_iff (prices : List ℚ) :
    (validatePriceData prices).1 = false ↔
      prices = [] ∨ pyMax prices > 1000 ∨ pyMin prices < -100 := by
  unfold validatePriceData
  by_cases hnil : prices = []
  · simp [hnil]
  · rw [if_neg hnil]
    by_cases hsev : pyMax prices > 1000 ∨ pyMin prices < -100
    · have hiss : issuesOf prices ≠ [] := by
        rcases hsev with h | h
        · exact issuesOf_ne_nil_of_high (lt_trans (by norm_num) h)
        · exact issuesOf_ne_nil_of_neg (lt_trans h (by norm_num))
      rw [if_pos ⟨hiss, hsev⟩]
      simp [hnil, hsev]
    · rw [if_neg fun hc => hsev hc.2]
      simp [hnil, hsev]

/-- C10: `validate_price_data` rejects exactly the empty price list and
lists whose maximum exceeds 1000 €/MWh or whose minimum is below
-100 €/MWh; every other anomaly in `issuesOf` only warns. -/
theorem C10_validation_gate (prices : List ℚ) :
    (validatePriceData prices).1 = false ↔
      prices = [] ∨ pyMax prices > 1000 ∨ pyMin prices < -100 :=
  validatePriceData_false_iff prices

/-- C3: the instant the source takes as Belgian midnight of the local
date 2025-07-15 (day 195), obtained from the fixed `+01:00` offset, is
not midnight of that date under the market zone's DST rule (which puts
Brussels midnight at 22:00 UTC in July, one hour earlier). -/
theorem C3_fixed_offset_diverges :
    bxlLocalOfUtc (codeStartTimeUtc 195) ≠ 195 * 1440 ∧
      bxlLocalOfUtc (195 * 1440 - 120) = 195 * 1440 := by
  constructor <;> decide

lemma formatPriceData_ne_none {prices : List NPoint} (h : prices ≠ []) (d now : Int) :
    formatPriceData prices d now ≠ none := by
  unfold formatPriceData
  rw [if_neg h]
  simp

/-- C2 (amended): the fetch attempt returns no series exactly when the
parsed point list is empty or its prices are extreme (max above 1000 or
min below -100); the distinct-hour count is never compared with the
true hour count of the local date. -/
theorem C2_no_hour_count_gate (env : Int → Int) (doc : Document) (targetDay now : Int) :
    fetchDayAheadPrices env doc targetDay now = none ↔
      (parseEntsoeResponse env doc targetDay = [] ∨
        pyMax ((parseEntsoeResponse env doc targetDay).map (·.price_eur_mwh)) > 1000 ∨
        pyMin ((parseEntsoeResponse env doc targetDay).map (·.price_eur_mwh)) < -100) := by
  unfold fetchDayAheadPrices
  set pts := parseEntsoeResponse env doc targetDay with hpts
  by_cases hnil : pts = []
  · simp [hnil]
  · have hmapnil : pts.map (·.price_eur_mwh) ≠ [] := by
      simpa using hnil
    rw [if_neg hnil]
    by_cases hv : (validatePriceData (pts.map (·.price_eur_mwh))).1 = false
    · rw [if_pos hv]
      have hsev := (validatePriceData_false_iff _).mp hv
      rcases hsev with h | h
      · exact absurd h hmapnil
      · simp [hnil, h]
    · rw [if_neg hv]
      have hne := formatPriceData_ne_none hnil targetDay now
      constructor
      · intro h
        exact absurd h hne
      · intro h
        have : (validatePriceData (pts.map (·.price_eur_mwh))).1 = false :=
          (validatePriceData_false_iff _).mpr (by
            rcases h with h | h
            · exact absurd h hnil
            · exact Or.inr h)
        exact absurd this hv

/-- C4 (amended): `parse_entsoe_response` performs no series selection:
its result never depends on any series' classification metadata, and it
equals the result of first pooling every period of every series into a
single merged series. -/
theorem C4_no_selection_pooling (env : Int → Int) (targetDay : Int) (doc : Document)
    (f : SeriesMetadata → SeriesMetadata) (m : SeriesMetadata) :
    parseEntsoeResponse env (mapMetadata f doc) targetDay =
        parseEntsoeResponse env doc targetDay ∧
      parseEntsoeResponse env (poolSeries doc m) targetDay =
        parseEntsoeResponse env doc targetDay := by
  constructor
  · unfold parseEntsoeResponse collectPoints mapMetadata
    congr 1
    simp [List.flatMap_map]
  · unfold parseEntsoeResponse collectPoints poolSeries
    congr 1
    simp [List.flatMap_assoc]

/-- C5 (amended): on identical parsed input the pipeline's two runs
agree on every field except `metadata.retrieved_at`, the wall-clock
invocation timestamp. -/
theorem C5_deterministic_modulo_timestamp (env : Int → Int) (doc : Document)
    (targetDay n1 n2 : Int) :
    (fetchDayAheadPrices env doc targetDay n1).map eraseRetrievedAt =
      (fetchDayAheadPrices env doc targetDay n2).map eraseRetrievedAt := by
  unfold fetchDayAheadPrices
  by_cases hnil : parseEntsoeResponse env doc targetDay = []
  · simp [hnil]
  · by_cases hv :
      (validatePriceData ((parseEntsoeResponse env doc targetDay).map (·.price_eur_mwh))).1 =
        false
    · simp only [if_neg hnil, if_pos hv]
    · simp only [if_neg hnil, if_neg hv]
      unfold formatPriceData
      simp only [if_neg hnil, Option.map_some']
      simp [eraseRetrievedAt]

lemma dedupGo_mem_find :
    ∀ (l : List PricePoint) (seen : List Int) (p : PricePoint),
      p ∈ dedupGo seen l →
        hourKey p ∉ seen ∧ l.find? (fun q => hourKey q == hourKey p) = some p := by
  intro l
  induction l with
  | nil =>
    intro seen p h
    simp [dedupGo] at h
  | cons a rest ih =>
    intro seen p h
    rw [dedupGo] at h
    by_cases ha : hourKey a ∈ seen
    · rw [if_pos ha] at h
      obtain ⟨hns, hf⟩ := ih seen p h
      refine ⟨hns, ?_⟩
      rw [List.find?_cons_of_neg, hf]
      simp only [beq_iff_eq]
      intro hEq
      exact hns (hEq ▸ ha)
    · rw [if_neg ha] at h
      rcases List.mem_cons.mp h with rfl | h
      · exact ⟨ha, by rw [List.find?_cons_of_pos _ (by simp)]⟩
      · obtain ⟨hns, hf⟩ := ih (hourKey a :: seen) p h
        have hne : hourKey p ≠ hourKey a := fun hEq => hns (by simp [hEq])
        refine ⟨fun hmem => hns (by simp [hmem]), ?_⟩
        rw [List.find?_cons_of_neg, hf]
        simp only [beq_iff_eq]
        exact fun hEq => hne hEq.symm

lemma dedupGo_keys_nodup :
    ∀ (l : List PricePoint) (seen : List Int),
      ((dedupGo seen l).map hourKey).Nodup ∧
        ∀ k ∈ (dedupGo seen l).map hourKey, k ∉ seen := by
  intro l
  induction l with
  | nil =>
    intro seen
    simp [dedupGo]
  | cons a rest ih =>
    intro seen
    rw [dedupGo]
    by_cases ha : hourKey a ∈ seen
    · rw [if_pos ha]
      exact ih seen
    · rw [if_neg ha]
      obtain ⟨hnd, hdisj⟩ := ih (hourKey a :: seen)
      refine ⟨?_, ?_⟩
      · rw [List.map_cons, List.nodup_cons]
        exact ⟨fun hmem => (hdisj _ hmem) (by simp), hnd⟩
      · intro k hk
        rw [List.map_cons, List.mem_cons] at hk
        rcases hk with rfl | hk
        · exact ha
        · exact fun hmem => (hdisj _ hk) (by simp [hmem])

lemma dedupGo_keys_cover :
    ∀ (l : List PricePoint) (seen : List Int) (p : PricePoint),
      p ∈ l → hourKey p ∈ seen ∨ hourKey p ∈ (dedupGo seen l).map hourKey := by
  intro l
  induction l with
  | nil =>
    intro seen p h
    cases h
  | cons a rest ih =>
    intro seen p h
    rw [dedupGo]
    by_cases ha : hourKey a ∈ seen
    · rw [if_pos ha]
      rcases List.mem_cons.mp h with rfl | h
      · exact Or.inl ha
      · exact ih seen p h
    · rw [if_neg ha]
      rcases List.mem_cons.mp h with rfl | h
      · exact Or.inr (by simp)
      · rcases ih (hourKey a :: seen) p h with hmem | hmem
        · rcases List.mem_cons.mp hmem with hEq | hmem
          · exact Or.inr (by simp [hEq])
          · exact Or.inl hmem
        · exact Or.inr (by simp [hmem])

/-- C1 (amended): deduplication keeps exactly one point per local hour,
namely the *first* point carrying that hour in the stably sorted
stream — not the minimum price, and (for equal timestamps) dependent on
the input order. -/
theorem C1_dedup_keeps_first (pts : List PricePoint) :
    ((dedupGo [] (sortByDt pts)).map hourKey).Nodup ∧
      (∀ p ∈ dedupGo [] (sortByDt pts),
        (sortByDt pts).find? (fun q => hourKey q == hourKey p) = some p) ∧
      ∀ p ∈ pts, hourKey p ∈ (dedupGo [] (sortByDt pts)).map hourKey := by
  refine ⟨(dedupGo_keys_nodup _ _).1,
    fun p hp => (dedupGo_mem_find _ _ _ hp).2, fun p hp => ?_⟩
  have hp' : p ∈ sortByDt pts := by
    rw [sortByDt, List.mem_insertionSort]
    exact hp
  rcases dedupGo_keys_cover _ [] p hp' with h | h
  · cases h
  · exact h

lemma stepBest_none (c : Nat × ℚ) : stepBest none c = some c := rfl

lemma stepBest_some (b c : Nat × ℚ) :
    stepBest (some b) c = if c.2 < b.2 then some c else some b := rfl

lemma foldl_stepBest_some (g : Nat → ℚ) :
    ∀ m : Nat, 1 ≤ m →
      ∃ i : Nat,
        ((List.range m).map fun j => (j, g j)).foldl stepBest none = some (i, g i) ∧
          i < m ∧ (∀ j, j < m → g i ≤ g j) ∧ ∀ j, j < i → g i < g j := by
  intro m
  induction m with
  | zero => omega
  | succ n ih =>
    intro _
    by_cases hn : 1 ≤ n
    · obtain ⟨i, hfold, hlt, hmin, htie⟩ := ih hn
      rw [List.range_succ, List.map_append, List.foldl_append, hfold]
      simp only [List.map_cons, List.map_nil, List.foldl_cons, List.foldl_nil, stepBest_some]
      by_cases hc : g n < g i
      · rw [if_pos hc]
        refine ⟨n, rfl, by omega, ?_, ?_⟩
        · intro j hj
          rcases Nat.lt_succ_iff_lt_or_eq.mp hj with hj | rfl
          · exact le_of_lt (lt_of_lt_of_le hc (hmin j hj))
          · exact le_refl _
        · intro j hj
          exact lt_of_lt_of_le hc (hmin j hj)
      · rw [if_neg hc]
        refine ⟨i, rfl, by omega, ?_, htie⟩
        intro j hj
        rcases Nat.lt_succ_iff_lt_or_eq.mp hj with hj | rfl
        · exact hmin j hj
        · exact le_of_not_lt hc
    · have hn0 : n = 0 := by omega
      subst hn0
      refine ⟨0, ?_, by omega, ?_, ?_⟩
      · rfl
      · intro j hj
        have : j = 0 := by omega
        subst this
        exact le_refl _
      · intro j hj
        omega

/-- C6: for `1 ≤ k`, `find_cheapest_block` returns `None` on a series
shorter than `k`, and otherwise a contiguous `k`-hour window of the
series whose price sum is minimal over all such windows, ties broken by
the earliest start index; its `average_price` times `k` is the window
sum, hence at most the price sum of any `k` consecutive hours. -/
theorem C6_cheapest_block (pts : List NPoint) (k : Nat) (hk : 1 ≤ k) :
    (pts.length < k → findCheapestBlock pts k = none) ∧
      (k ≤ pts.length →
        ∃ b i, findCheapestBlock pts k = some b ∧ i + k ≤ pts.length ∧
          b.hours = k ∧
          b.prices = ((pts.map (·.price_eur_mwh)).drop i).take k ∧
          b.total_price = blockSum (pts.map (·.price_eur_mwh)) i k ∧
          b.average_price * (k : ℚ) = blockSum (pts.map (·.price_eur_mwh)) i k ∧
          (∀ j, j + k ≤ pts.length →
            blockSum (pts.map (·.price_eur_mwh)) i k ≤
              blockSum (pts.map (·.price_eur_mwh)) j k) ∧
          ∀ j, j < i →
            blockSum (pts.map (·.price_eur_mwh)) i k <
              blockSum (pts.map (·.price_eur_mwh)) j k) := by
  constructor
  · intro h
    unfold findCheapestBlock
    rw [if_pos h]
  · intro hkn
    have hm : 1 ≤ pts.length - k + 1 := by omega
    obtain ⟨i, hfold, hlt, hmin, htie⟩ :=
      foldl_stepBest_some (fun j => blockSum (pts.map (·.price_eur_mwh)) j k) _ hm
    have hbb : bestBlock (pts.map (·.price_eur_mwh)) k =
        some (i, blockSum (pts.map (·.price_eur_mwh)) i k) := by
      unfold bestBlock
      rw [List.length_map]
      exact hfold
    unfold findCheapestBlock
    rw [if_neg (by omega), hbb]
    refine ⟨_, i, rfl, by omega, rfl, ?_, rfl, ?_, ?_, fun j hj => htie j hj⟩
    · rw [List.map_take, List.map_drop]
    · have hk0 : (k : ℚ) ≠ 0 := Nat.cast_ne_zero.mpr (by omega)
      exact div_mul_cancel₀ _ hk0
    · intro j hj
      exact hmin j (by omega)

/-- C6 witness: the theorem instantiated at a concrete two-point series
and `k = 1`. -/
theorem C6_cheapest_block_witness :
    (wpts6.length < 1 → findCheapestBlock wpts6 1 = none) ∧
      (1 ≤ wpts6.length →
        ∃ b i, findCheapestBlock wpts6 1 = some b ∧ i + 1 ≤ wpts6.length ∧
          b.hours = 1 ∧
          b.prices = ((wpts6.map (·.price_eur_mwh)).drop i).take 1 ∧
          b.total_price = blockSum (wpts6.map (·.price_eur_mwh)) i 1 ∧
          b.average_price * (1 : ℚ) = blockSum (wpts6.map (·.price_eur_mwh)) i 1 ∧
          (∀ j, j + 1 ≤ wpts6.length →
            blockSum (wpts6.map (·.price_eur_mwh)) i 1 ≤
              blockSum (wpts6.map (·.price_eur_mwh)) j 1) ∧
          ∀ j, j < i →
            blockSum (wpts6.map (·.price_eur_mwh)) i 1 <
              blockSum (wpts6.map (·.price_eur_mwh)) j 1) :=
  C6_cheapest_block wpts6 1 (by decide)

/-- C7: every point emitted by the period decoder carries (the local
image of) the UTC instant `startUTC + resolution * (position - 1)`,
computed by instant arithmetic before any local conversion, together
with the raw price of the matching `Point` element. -/
theorem C7_decoded_timestamp (env : Int → Int) (targetDay : Int) (per : Period)
    (q : PricePoint) (hq : q ∈ decodePeriod env targetDay per) :
    ∃ r ∈ per.points,
      q.dt = env (per.start + resolutionMinutes per.res * (r.position - 1)) ∧
        q.price_eur_mwh = r.price := by
  simp only [decodePeriod] at hq
  split at hq
  · exact absurd hq (List.not_mem_nil q)
  · split at hq
    · rw [List.mem_filterMap] at hq
      obtain ⟨r, hr, hfr⟩ := hq
      split at hfr
      · rw [Option.some.injEq] at hfr
        subst hfr
        exact ⟨r, hr, rfl, rfl⟩
      · cases hfr
    · exact absurd hq (List.not_mem_nil q)

/-- C7 witness: the theorem applied to the single point decoded from a
concrete period. -/
theorem C7_decoded_timestamp_witness :
    (⟨0, 100, 100 / 1000, Res.PT60M⟩ : PricePoint) ∈ decodePeriod id 0 wper7 ∧
      ∃ r ∈ wper7.points,
        (⟨0, 100, 100 / 1000, Res.PT60M⟩ : PricePoint).dt =
            id (wper7.start + resolutionMinutes wper7.res * (r.position - 1)) ∧
          (⟨0, 100, 100 / 1000, Res.PT60M⟩ : PricePoint).price_eur_mwh = r.price := by
  have hmem : (⟨0, 100, 100 / 1000, Res.PT60M⟩ : PricePoint) ∈ decodePeriod id 0 wper7 := by
    simp +decide [decodePeriod, wper7, localDayOf, resolutionMinutes]
  exact ⟨hmem, C7_decoded_timestamp id 0 wper7 _ hmem⟩

lemma numberFrom_get :
    ∀ (pts : List PricePoint) (n i : Nat) (h : i < (numberFrom n pts).length),
      ((numberFrom n pts).get ⟨i, h⟩).hour = n + i := by
  intro pts
  induction pts with
  | nil =>
    intro n i h
    simp [numberFrom] at h
  | cons p rest ih =>
    intro n i h
    cases i with
    | zero => simp [numberFrom]
    | succ j =>
      simp only [numberFrom] at h ⊢
      rw [List.get_cons_succ]
      rw [ih (n + 1) j _]
      omega

/-- C8 (amended): the `hour` field of every point of the canonical
series is the point's 1-based sequential position in the ordered
deduplicated list — not its local hour-of-day. -/
theorem C8_hour_is_sequential_index (pts : List PricePoint) (i : Nat)
    (h : i < (addHours pts).length) :
    ((addHours pts).get ⟨i, h⟩).hour = i + 1 := by
  simp only [addHours] at h ⊢
  rw [numberFrom_get pts 1 i h]
  omega

/-- C8 witness: the first (index 0) numbered point gets hour 1. -/
theorem C8_hour_witness :
    ((addHours [wpt8]).get ⟨0, by decide⟩).hour = 0 + 1 :=
  C8_hour_is_sequential_index [wpt8] 0 (by decide)

lemma dedupGo_subset :
    ∀ (l : List PricePoint) (seen : List Int) (p : PricePoint),
      p ∈ dedupGo seen l → p ∈ l := by
  intro l
  induction l with
  | nil =>
    intro seen p h
    cases h
  | cons a rest ih =>
    intro seen p h
    rw [dedupGo] at h
    by_cases ha : hourKey a ∈ seen
    · rw [if_pos ha] at h
      exact List.mem_cons_of_mem a (ih seen p h)
    · rw [if_neg ha] at h
      rcases List.mem_cons.mp h with rfl | h
      · exact List.mem_cons_self _ _
      · exact List.mem_cons_of_mem a (ih _ p h)

lemma kwh_decode {env : Int → Int} {targetDay : Int} {per : Period} {p : PricePoint}
    (h : p ∈ decodePeriod env targetDay per) :
    p.price_eur_kwh = p.price_eur_mwh / 1000 := by
  simp only [decodePeriod] at h
  split at h
  · exact absurd h (List.not_mem_nil p)
  · split at h
    · rw [List.mem_filterMap] at h
      obtain ⟨r, hr, hfr⟩ := h
      split at hfr
      · rw [Option.some.injEq] at hfr
        subst hfr
        rfl
      · cases hfr
    · exact absurd h (List.not_mem_nil p)

lemma kwh_collect {env : Int → Int} {doc : Document} {targetDay : Int} {p : PricePoint}
    (h : p ∈ collectPoints env doc targetDay) :
    p.price_eur_kwh = p.price_eur_mwh / 1000 := by
  simp only [collectPoints, List.mem_flatMap] at h
  obtain ⟨ts, hts, per, hper, h⟩ := h
  exact kwh_decode h

lemma kwh_convert {pts : List PricePoint} {p : PricePoint} (h : p ∈ convertToHourly pts) :
    p.price_eur_kwh = p.price_eur_mwh / 1000 := by
  simp only [convertToHourly, List.mem_map] at h
  obtain ⟨key, hkey, rfl⟩ := h
  rfl

lemma mem_numberFrom :
    ∀ (l : List PricePoint) (n : Nat) (q : NPoint), q ∈ numberFrom n l →
      ∃ p ∈ l, q.price_eur_mwh = p.price_eur_mwh ∧ q.price_eur_kwh = p.price_eur_kwh := by
  intro l
  induction l with
  | nil =>
    intro n q h
    cases h
  | cons p rest ih =>
    intro n q h
    rw [numberFrom] at h
    rcases List.mem_cons.mp h with rfl | h
    · exact ⟨p, by simp, rfl, rfl⟩
    · obtain ⟨p', hp', h1, h2⟩ := ih (n + 1) q h
      exact ⟨p', by simp [hp'], h1, h2⟩

lemma kwh_parse {env : Int → Int} {doc : Document} {targetDay : Int} {q : NPoint}
    (h : q ∈ parseEntsoeResponse env doc targetDay) :
    q.price_eur_kwh = q.price_eur_mwh / 1000 := by
  simp only [parseEntsoeResponse, parseFromPoints, addHours] at h
  split at h
  · exact absurd h (List.not_mem_nil q)
  · obtain ⟨p, hp, h1, h2⟩ := mem_numberFrom _ 1 q h
    rw [h2, h1]
    have hp' := dedupGo_subset _ _ _ hp
    split at hp'
    · exact absurd hp' (List.not_mem_nil p)
    · split at hp'
      · exact kwh_convert hp'
      · rw [sortByDt, List.mem_insertionSort] at hp'
        exact kwh_collect hp'

/-- C9: every point of the canonical output derives its three price
fields from one underlying EUR/MWh price `P`: the EUR/MWh field is `P`
rounded to 2 decimals, the EUR/kWh field is `P / 1000` rounded to 4
decimals, and the cent/kWh field is `P / 10` rounded to 2 decimals. -/
theorem C9_unit_conversions (env : Int → Int) (doc : Document) (targetDay now : Int)
    (q : OutPoint) (hq : q ∈ priceList (fetchDayAheadPrices env doc targetDay now)) :
    ∃ P : ℚ, q.price_eur_mwh = roundTo 2 P ∧ q.price_eur_kwh = roundTo 4 (P / 1000) ∧
      q.price_cent_kwh = roundTo 2 (P / 10) := by
  simp only [fetchDayAheadPrices] at hq
  by_cases hnil : parseEntsoeResponse env doc targetDay = []
  · simp [hnil, priceList] at hq
  · simp only [if_neg hnil] at hq
    by_cases hv :
      (validatePriceData ((parseEntsoeResponse env doc targetDay).map (·.price_eur_mwh))).1 =
        false
    · simp [if_pos hv, priceList] at hq
    · simp only [if_neg hv] at hq
      unfold formatPriceData at hq
      simp only [if_neg hnil, priceList] at hq
      rw [List.mem_map] at hq
      obtain ⟨p, hp, rfl⟩ := hq
      refine ⟨p.price_eur_mwh, rfl, ?_, ?_⟩
      · show roundTo 4 p.price_eur_kwh = roundTo 4 (p.price_eur_mwh / 1000)
        rw [kwh_parse hp]
      · show roundTo 2 (p.price_eur_kwh * 100) = roundTo 2 (p.price_eur_mwh / 10)
        rw [kwh_parse hp]
        congr 1
        ring

lemma foldl_max_le {c : ℚ} :
    ∀ (l : List ℚ) (a : ℚ), a ≤ c → (∀ x ∈ l, x ≤ c) → l.foldl max a ≤ c := by
  intro l
  induction l with
  | nil =>
    intro a ha _
    simpa using ha
  | cons x xs ih =>
    intro a ha h
    rw [List.foldl_cons]
    exact ih (max a x) (max_le ha (h x (by simp))) fun y hy => h y (by simp [hy])

lemma pyMax_le {c : ℚ} {l : List ℚ} (h0 : 0 ≤ c) (h : ∀ x ∈ l, x ≤ c) : pyMax l ≤ c := by
  cases l with
  | nil => simpa [pyMax] using h0
  | cons x xs =>
    exact foldl_max_le xs x (h x (by simp)) fun y hy => h y (by simp [hy])

lemma le_foldl_min {c : ℚ} :
    ∀ (l : List ℚ) (a : ℚ), c ≤ a → (∀ x ∈ l, c ≤ x) → c ≤ l.foldl min a := by
  intro l
  induction l with
  | nil =>
    intro a ha _
    simpa using ha
  | cons x xs ih =>
    intro a ha h
    rw [List.foldl_cons]
    exact ih (min a x) (le_min ha (h x (by simp))) fun y hy => h y (by simp [hy])

lemma le_pyMin {c : ℚ} {l : List ℚ} (h0 : c ≤ 0) (h : ∀ x ∈ l, c ≤ x) : c ≤ pyMin l := by
  cases l with
  | nil => simpa [pyMin] using h0
  | cons x xs =>
    exact le_foldl_min xs x (h x (by simp)) fun y hy => h y (by simp [hy])

lemma validatePriceData_fst_true {prices : List ℚ} (hnil : prices ≠ [])
    (hmax : pyMax prices ≤ 1000) (hmin : -100 ≤ pyMin prices) :
    (validatePriceData prices).1 = true := by
  unfold validatePriceData
  rw [if_neg hnil, if_neg]
  rintro ⟨-, h | h⟩
  · exact absurd hmax (not_le.mpr h)
  · exact absurd hmin (not_le.mpr h)

lemma fetch_eq_format {env : Int → Int} {doc : Document} {targetDay now : Int}
    (hnil : parseEntsoeResponse env doc targetDay ≠ [])
    (hv : (validatePriceData
      ((parseEntsoeResponse env doc targetDay).map (·.price_eur_mwh))).1 = true) :
    fetchDayAheadPrices env doc targetDay now =
      formatPriceData (parseEntsoeResponse env doc targetDay) targetDay now := by
  simp only [fetchDayAheadPrices]
  rw [if_neg hnil, if_neg (by simp [hv])]

lemma priceList_format {pts : List NPoint} (h : pts ≠ []) (d now : Int) :
    priceList (formatPriceData pts d now) = pts.map mkOutPoint := by
  unfold formatPriceData
  rw [if_neg h]
  rfl

/-- C9 witness: the theorem applied to the single canonical output
point of a concrete one-point document. -/
theorem C9_unit_conversions_witness :
    (⟨1, 0, roundTo 2 200, roundTo 4 (200 / 1000), roundTo 2 (200 / 1000 * 100)⟩ : OutPoint) ∈
        priceList (fetchDayAheadPrices id wdoc1pt 0 0) ∧
      ∃ P : ℚ,
        (⟨1, 0, roundTo 2 200, roundTo 4 (200 / 1000), roundTo 2 (200 / 1000 * 100)⟩ :
            OutPoint).price_eur_mwh = roundTo 2 P ∧
          (⟨1, 0, roundTo 2 200, roundTo 4 (200 / 1000), roundTo 2 (200 / 1000 * 100)⟩ :
              OutPoint).price_eur_kwh = roundTo 4 (P / 1000) ∧
            (⟨1, 0, roundTo 2 200, roundTo 4 (200 / 1000), roundTo 2 (200 / 1000 * 100)⟩ :
                OutPoint).price_cent_kwh = roundTo 2 (P / 10) := by
  have hparse : parseEntsoeResponse id wdoc1pt 0 = [⟨1, 0, 200, 200 / 1000, Res.PT60M⟩] := by
    simp +decide [parseEntsoeResponse, parseFromPoints, collectPoints, decodePeriod, localDayOf,
      resolutionMinutes, sortByDt, List.insertionSort, List.orderedInsert, dedupGo, hourKey,
      addHours, numberFrom, wdoc1pt]
  have hnil : parseEntsoeResponse id wdoc1pt 0 ≠ [] := by
    rw [hparse]
    simp
  have hv : (validatePriceData ((parseEntsoeResponse id wdoc1pt 0).map (·.price_eur_mwh))).1 =
      true := by
    rw [hparse]
    exact validatePriceData_fst_true (by simp) (by norm_num [pyMax]) (by norm_num [pyMin])
  have hmem : (⟨1, 0, roundTo 2 200, roundTo 4 (200 / 1000), roundTo 2 (200 / 1000 * 100)⟩ :
      OutPoint) ∈ priceList (fetchDayAheadPrices id wdoc1pt 0 0) := by
    rw [fetch_eq_format hnil hv, hparse, priceList_format (by simp) 0 0]
    simp [mkOutPoint]
  exact ⟨hmem, C9_unit_conversions id wdoc1pt 0 0 _ hmem⟩

/-- C5 counterexample: two runs of the pipeline on the byte-identical
document `wdoc1pt` at clock readings 0 and 1 produce unequal outputs
(they differ in `metadata.retrieved_at`). -/
theorem C5_counterexample :
    fetchDayAheadPrices id wdoc1pt 0 0 ≠ fetchDayAheadPrices id wdoc1pt 0 1 := by
  have hparse : parseEntsoeResponse id wdoc1pt 0 = [⟨1, 0, 200, 200 / 1000, Res.PT60M⟩] := by
    simp +decide [parseEntsoeResponse, parseFromPoints, collectPoints, decodePeriod, localDayOf,
      resolutionMinutes, sortByDt, List.insertionSort, List.orderedInsert, dedupGo, hourKey,
      addHours, numberFrom, wdoc1pt]
  have hnil : parseEntsoeResponse id wdoc1pt 0 ≠ [] := by
    rw [hparse]
    simp
  have hv : (validatePriceData ((parseEntsoeResponse id wdoc1pt 0).map (·.price_eur_mwh))).1 =
      true := by
    rw [hparse]
    exact validatePriceData_fst_true (by simp) (by norm_num [pyMax]) (by norm_num [pyMin])
  have key : ∀ now : Int,
      (Option.map (fun r => r.metadata.retrieved_at)
        (fetchDayAheadPrices id wdoc1pt 0 now)).getD 99 = now := by
    intro now
    rw [fetch_eq_format hnil hv]
    unfold formatPriceData
    rw [if_neg hnil]
    rfl
  intro h
  have h2 := congrArg (fun o =>
    (Option.map (fun r => r.metadata.retrieved_at) o).getD 99) h
  simp only [key] at h2
  norm_num at h2

/-- C1 counterexample: for two candidates with equal local hour 10 and
equal timestamps, deduplication keeps the first one in input order —
price 42 when 42 comes first (not the minimum 40), price 40 when 40
comes first — so the kept value is not the minimum and depends on the
input ordering. -/
theorem C1_counterexample :
    ((dedupGo [] (sortByDt [cpA, cpB])).map (·.price_eur_mwh) = [42] ∧
        (dedupGo [] (sortByDt [cpB, cpA])).map (·.price_eur_mwh) = [40]) ∧
      (42 : ℚ) ≠ 40 := by
  refine ⟨⟨?_, ?_⟩, by norm_num⟩ <;>
    simp +decide [sortByDt, List.insertionSort, List.orderedInsert, dedupGo, hourKey, cpA, cpB,
      dtLe]

/-- C1 witness: the amended theorem applied to the concrete two-point
stream `[cpA, cpB]` and its kept point `cpA`. -/
theorem C1_dedup_keeps_first_witness :
    cpA ∈ dedupGo [] (sortByDt [cpA, cpB]) ∧
      (sortByDt [cpA, cpB]).find? (fun q => hourKey q == hourKey cpA) = some cpA := by
  have hmem : cpA ∈ dedupGo [] (sortByDt [cpA, cpB]) := by
    simp +decide [sortByDt, List.insertionSort, List.orderedInsert, dedupGo, hourKey, cpA, cpB,
      dtLe]
  exact ⟨hmem, (C1_dedup_keeps_first [cpA, cpB]).2.1 cpA hmem⟩

/-- C4 counterexample: on a document with two series — the second one
not even denominated in EUR/MWH — the parser pools one point from each
series (prices 41 and 43) into the single day output. -/
theorem C4_counterexample :
    (parseEntsoeResponse id cdoc4 0).map (·.price_eur_mwh) = [41, 43] ∧ (41 : ℚ) ≠ 43 := by
  refine ⟨?_, by norm_num⟩
  simp +decide [parseEntsoeResponse, parseFromPoints, collectPoints, decodePeriod, localDayOf,
    resolutionMinutes, sortByDt, List.insertionSort, List.orderedInsert, dedupGo, hourKey,
    addHours, numberFrom, cdoc4]

/-- C2 counterexample: a document yielding 6 distinct hourly points on
the spring-forward Brussels date (true hour count 23) is accepted and a
series is returned — no `IncompleteDayError`-like failure exists. -/
theorem C2_counterexample :
    fetchDayAheadPrices bxlLocalOfUtc cdoc2 88 0 ≠ none ∧
      (parseEntsoeResponse bxlLocalOfUtc cdoc2 88).length = 6 ∧
      trueHourCount 88 = 23 := by
  have hmap : (parseEntsoeResponse bxlLocalOfUtc cdoc2 88).map (·.price_eur_mwh) =
      [50, 50, 50, 50, 50, 50] := by
    simp +decide [parseEntsoeResponse, parseFromPoints, collectPoints, decodePeriod, localDayOf,
      resolutionMinutes, sortByDt, List.insertionSort, List.orderedInsert, dedupGo, hourKey,
      addHours, numberFrom, cdoc2, bxlLocalOfUtc, bxlOffset]
  have hnil : parseEntsoeResponse bxlLocalOfUtc cdoc2 88 ≠ [] := by
    intro h
    rw [h] at hmap
    cases hmap
  have hv : (validatePriceData
      ((parseEntsoeResponse bxlLocalOfUtc cdoc2 88).map (·.price_eur_mwh))).1 = true := by
    rw [hmap]
    exact validatePriceData_fst_true (by simp) (by norm_num [pyMax]) (by norm_num [pyMin])
  refine ⟨?_, ?_, by decide⟩
  · rw [fetch_eq_format hnil hv]
    exact formatPriceData_ne_none hnil 88 0
  · have h2 := congrArg List.length hmap
    simpa using h2

/-- C8 counterexample: on a 4-hour day with unique minimum at local
hour 3, the canonical output point for local hour 3 (minute 180)
carries `hour = 4`, and the reported 1-hour cheapest block has
`hour = 4`, not the local hour 3. -/
theorem C8_counterexample :
    ((priceList (formatPriceData (parseEntsoeResponse id cdoc8 0) 0 0)).find?
        (fun q => q.dt == 180)).map (·.hour) = some 4 ∧
      ((formatPriceData (parseEntsoeResponse id cdoc8 0) 0 0).bind
          (fun r => r.metadata.cheapest_1h)).map (·.hour) = some 4 ∧
      (180 : Int).fdiv 60 % 24 = 3 ∧ (4 : Nat) ≠ 3 := by
  have hparse : parseEntsoeResponse id cdoc8 0 =
      [⟨1, 0, 20, 20 / 1000, Res.PT60M⟩, ⟨2, 60, 21, 21 / 1000, Res.PT60M⟩,
        ⟨3, 120, 22, 22 / 1000, Res.PT60M⟩, ⟨4, 180, 10, 10 / 1000, Res.PT60M⟩] := by
    simp +decide [parseEntsoeResponse, parseFromPoints, collectPoints, decodePeriod, localDayOf,
      resolutionMinutes, sortByDt, List.insertionSort, List.orderedInsert, dedupGo, hourKey,
      addHours, numberFrom, cdoc8]
  have hblock : (findCheapestBlock (parseEntsoeResponse id cdoc8 0) 1).map (·.start_hour) =
      some 4 := by
    rw [hparse]
    norm_num [findCheapestBlock, bestBlock, blockSum, stepBest, List.range_succ]
  refine ⟨?_, ?_, by decide, by decide⟩
  · rw [hparse, priceList_format (by simp) 0 0]
    simp +decide [mkOutPoint]
  · unfold formatPriceData
    rw [if_neg (by rw [hparse]; simp)]
    show ((findCheapestBlock (parseEntsoeResponse id cdoc8 0) 1).map fun b =>
      ({ hour := b.start_hour, time := b.start_dt, price := roundTo 2 b.average_price } :
        OneHourBlockOut)).map (·.hour) = some 4
    rw [Option.map_map]
    exact hblock
